import Mathlib

/-!
Verification development for the trust and attribute-release core of
dm.zope.saml2 (files attribute.py, authority.py, entity.py).

The Python code is shallowly embedded: stateful managers become explicit
state passing, external collaborators (xmlsec key loading, pyxb value
conversion, the subject property store, the metadata repository) become
function-valued parameters that record exactly the arguments which the
code hands to them, and fallible operations return Option or Except.
-/

namespace Saml2

abbrev Bytes := List Nat

abbrev Path := List String

/-! ## Attribute consuming service selection (attribute.py) -/

/-- A requested attribute of an SP service description
(pyxb element RequestedAttribute, fields used by the code). -/
structure RequestedAttr where
  NameFormat : Option String
  Name : String
  FriendlyName : Option String
deriving DecidableEq

/-- An AttributeConsumingService of an SPSSODescriptor.
isDefault is a tri-state XML attribute: absent, false or true. -/
structure ACS where
  index : Int
  isDefault : Option Bool
  RequestedAttribute : List RequestedAttr
deriving DecidableEq

structure SPSSODescriptor where
  AttributeConsumingService : List ACS
deriving DecidableEq

structure SPMetadata where
  SPSSODescriptor : List SPSSODescriptor
deriving DecidableEq

/-- The break condition of the first inner loop of
SimpleAttributeProvider._attribute_consuming_service:
Python ``index is None and acs.isDefault or index == acs.index``
(with index none, ``None == acs.index`` is always false and
``acs.isDefault`` is truthy exactly when it is the boolean true). -/
def acsBreakCond (index : Option Int) (acs : ACS) : Bool :=
  match index with
  | none => acs.isDefault == some true
  | some i => acs.index == i

/-- The body of the outer loop over SPSSODescriptor elements:
selection of an ACS inside one SP descriptor, or none. -/
def selectInSp (index : Option Int) (sp : SPSSODescriptor) : Option ACS :=
  match sp.AttributeConsumingService.find? (acsBreakCond index) with
  | some acs => some acs
  | none =>
    let acss := sp.AttributeConsumingService
    if index.isNone && !acss.isEmpty then
      match acss.find? (fun a => a.isDefault.isNone) with
      | some acs => some acs
      | none => acss.head?
    else none

/-- SimpleAttributeProvider._attribute_consuming_service (attribute.py):
the outer for/else loop over md.SPSSODescriptor, breaking at the first
descriptor that yields a service. -/
def _attribute_consuming_service (md : SPMetadata) (index : Option Int) :
    Option ACS :=
  md.SPSSODescriptor.findSome? (selectInSp index)

/-! ## Attribute release (attribute.py, _make_attribute_statement) -/

/-- Raw values as obtained from the subject or an evaluator; the code
only inspects whether a value is a byte string. -/
inductive RawValue
  | bytes (bs : Bytes)
  | str (s : String)
  | other (tag : String)
deriving DecidableEq

abbrev XmlValue := String

/-- A locally provided attribute description (ProvidedAttribute object;
fields read by _make_attribute_statement). -/
structure ProvidedAttr where
  format : String
  title : String
  id : String
  type : String
  evaluator : Option String
deriving DecidableEq

/-- One Attribute entry of the produced AttributeStatement. -/
structure EmittedAttr where
  NameFormat : String
  Name : String
  FriendlyName : String
  values : List XmlValue
deriving DecidableEq

/-- External collaborators of _make_attribute_statement:
self.objectValues(), member.getProperty, evaluator traversal,
charset decoding and xs_convert_to_xml. -/
structure ReleaseEnv where
  providedAttrs : List ProvidedAttr
  getProperty : String → Option RawValue
  evalAttr : String → String → RawValue
  decode : Bytes → String
  convert : String → Option RawValue → List XmlValue

/-- normalize_attrname_format "unspecified" (dm.saml2.util): the
canonical SAML2 unspecified attribute name format URI. -/
def normalizedUnspecified : String :=
  "urn:oasis:names:tc:SAML:2.0:attrname-format:unspecified"

/-- Key of a requested attribute in the local catalog:
``(ra.NameFormat or normalize_attrname_format("unspecified"), ra.Name)``
(an absent or empty NameFormat is falsy in Python). -/
def requestedKey (ra : RequestedAttr) : String × String :=
  (match ra.NameFormat with
   | some s => if s = "" then normalizedUnspecified else s
   | none => normalizedUnspecified,
   ra.Name)

/-- The catalog dict built by
``for att in self.objectValues(): attrs[(att.format, att.title)] = att``;
a later entry overwrites an earlier one, hence lookup from the back. -/
def catalogLookup (attrs : List ProvidedAttr) (key : String × String) :
    Option ProvidedAttr :=
  attrs.reverse.find? (fun a => a.format == key.1 && a.title == key.2)

/-- Raw value of a matched attribute: subject property when there is no
evaluator, otherwise the traversed evaluator applied to the member. -/
def rawAttrValue (env : ReleaseEnv) (d : ProvidedAttr) : Option RawValue :=
  match d.evaluator with
  | none => env.getProperty d.id
  | some ev => some (env.evalAttr ev d.id)

/-- The byte-string workaround: a bytes value of a string-typed attribute
is decoded with the configured charset before conversion. -/
def decodedAttrValue (env : ReleaseEnv) (d : ProvidedAttr)
    (v : Option RawValue) : Option RawValue :=
  match v with
  | some (RawValue.bytes bs) =>
    if d.type = "string" then some (RawValue.str (env.decode bs)) else v
  | _ => v

/-- Loop body for one requested attribute: none on a catalog miss (the
code logs and continues), otherwise the emitted Attribute entry. -/
def emitAttr (env : ReleaseEnv) (ra : RequestedAttr) : Option EmittedAttr :=
  match catalogLookup env.providedAttrs (requestedKey ra) with
  | none => none
  | some d =>
    let v := decodedAttrValue env d (rawAttrValue env d)
    some { NameFormat := d.format
           Name := d.title
           FriendlyName :=
             match ra.FriendlyName with
             | some f => if f = "" then d.id else f
             | none => d.id
           values := env.convert d.type v }

/-- Result of _make_attribute_statement: Python None, the string
"ResourceNotRecognized", or an AttributeStatement. -/
inductive ReleaseResult
  | nothing
  | resourceNotRecognized
  | statement (attrs : List EmittedAttr)
deriving DecidableEq

/-- SimpleAttributeProvider._make_attribute_statement (attribute.py),
from the point where the recent metadata is at hand. -/
def _make_attribute_statement (env : ReleaseEnv) (md : SPMetadata)
    (index : Option Int) : ReleaseResult :=
  match _attribute_consuming_service md index with
  | none =>
    if index.isNone then ReleaseResult.nothing
    else ReleaseResult.resourceNotRecognized
  | some acs =>
    let av := acs.RequestedAttribute.filterMap (emitAttr env)
    if av.isEmpty then ReleaseResult.nothing else ReleaseResult.statement av

/-! ## Keys manager (authority.py, class _KeysManager) -/

abbrev EntityId := String

abbrev Time := Int

abbrev Cert := Bytes

/-- Key material exactly as handed to the external xmlsec loader:
either the private pem key file with its password bytes
(xmlsec.Key.load) or the raw bytes of a der certificate
(xmlsec.Key.loadMemory). -/
inductive Key
  | pem (file : String) (password : Bytes)
  | certDer (cert : Cert)
deriving DecidableEq

/-- What _KeysManager reads from the metadata repository for a foreign
entity: the declared validity of the recent metadata and, per role,
``md.get_role_certificates(role, "signing")``. -/
structure EntityMetadataHandle where
  validUntil : Option Time
  signingCerts : String → List Cert

/-- The authority as seen from _KeysManager.__getitem__ via acquisition,
together with the external collaborators it calls. -/
structure AuthEnv where
  entity_id : EntityId
  private_key : String
  private_key_password : Option String
  encode : String → Bytes
  makeAbsolute : String → String
  role2element : List String
  metadata : EntityId → EntityMetadataHandle

/-- The sentinel b"fail" passed so that xmlsec never asks the terminal. -/
def failBytes : Bytes := [102, 97, 105, 108]

/-- The password argument of the xmlsec load call:
``auth.private_key_password and auth._to_bytes(auth.private_key_password)
or b"fail"`` (Python truthiness: an absent or empty password, or an
encoding that comes out empty, yields the sentinel). -/
def passwordArg (env : AuthEnv) : Bytes :=
  match env.private_key_password with
  | none => failBytes
  | some p =>
    if p = "" then failBytes
    else if env.encode p = [] then failBytes else env.encode p

/-- The seen-set loop of the foreign-entity branch:
``if cert in seen: continue; seen.add(cert); keys.append(...)``
run over the list of certificates of all roles in order. -/
def collectSigningCerts (seen : List Cert) : List Cert → List Cert
  | [] => []
  | c :: l =>
    if c ∈ seen then collectSigningCerts seen l
    else c :: collectSigningCerts (c :: seen) l

/-- Certificate list for a foreign entity: roles iterated in role2element
order, certificates with signing usage, first occurrence kept. -/
def foreignCertList (env : AuthEnv) (eid : EntityId) : List Cert :=
  collectSigningCerts []
    (env.role2element.flatMap (env.metadata eid).signingCerts)

/-- The recomputation part of _KeysManager.__getitem__: validUntil and
keys for the own entity respectively a foreign entity. -/
def computeKeys (env : AuthEnv) (eid : EntityId) : Option Time × List Key :=
  if env.entity_id = eid then
    (none, [Key.pem (env.makeAbsolute env.private_key) (passwordArg env)])
  else
    ((env.metadata eid).validUntil, (foreignCertList env eid).map Key.certDer)

/-- The eid2volatile_info mapping: per entity id an optional cache slot
``(validUntil, keys)``; an absent slot also models a Volatile whose
content was lost. -/
structure KeysState where
  cache : EntityId → Option (Option Time × List Key)

/-- The cache validity test ``info[0] is None or utcnow() <= info[0]``. -/
def cacheValid (validUntil : Option Time) (now : Time) : Bool :=
  match validUntil with
  | none => true
  | some t => now ≤ t

/-- Store a freshly computed slot (``volatile.set((validUntil, keys))``). -/
def kmSet (st : KeysState) (eid : EntityId) (info : Option Time × List Key) :
    KeysState :=
  ⟨fun e => if e = eid then some info else st.cache e⟩

/-- _KeysManager.__getitem__, returning the keys and the new state. -/
def kmGetItem (env : AuthEnv) (now : Time) (st : KeysState) (eid : EntityId) :
    List Key × KeysState :=
  match st.cache eid with
  | some info =>
    if cacheValid info.1 now then (info.2, st)
    else ((computeKeys env eid).2, kmSet st eid (computeKeys env eid))
  | none => ((computeKeys env eid).2, kmSet st eid (computeKeys env eid))

/-- _KeysManager.__delitem__: unconditional removal of the slot. -/
def kmDelItem (st : KeysState) (eid : EntityId) : KeysState :=
  ⟨fun e => if e = eid then none else st.cache e⟩

/-- _KeysManager.get: ``self[eid] or default``. -/
def kmGet (env : AuthEnv) (now : Time) (st : KeysState) (eid : EntityId)
    (default : List Key) : List Key × KeysState :=
  let r := kmGetItem env now st eid
  (if r.1 = [] then default else r.1, r.2)

/-! ## Role registry (authority.py, SamlAuthority) -/

abbrev RoleRegistry := List (String × Path)

/-- The loop of register_role_implementor over role2element: the roles
mapping is mutated in place, an already registered role raises
ValueError on the spot, so mutations made for earlier roles persist.
Returns the raised role (if any) and the final mapping. -/
def registerGo (provides : String → Bool) (path : Path) :
    List String → RoleRegistry → Option String × RoleRegistry
  | [], roles => (none, roles)
  | r :: rest, roles =>
    if provides r then
      if (roles.lookup r).isSome then (some r, roles)
      else registerGo provides path rest (roles ++ [(r, path)])
    else registerGo provides path rest roles

/-- SamlAuthority.register_role_implementor: the loop plus the final
``self._update()`` (third component: whether the invalidation ran;
a raise skips it). -/
def register_role_implementor (r2e : List String) (provides : String → Bool)
    (roles : RoleRegistry) (path : Path) :
    Option String × RoleRegistry × Bool :=
  let res := registerGo provides path r2e roles
  (res.1, res.2, res.1.isNone)

/-- SamlAuthority.unregister_role_implementor: every mapping whose path
equals the implementor path is removed, then ``self._update()`` runs. -/
def unregister_role_implementor (roles : RoleRegistry) (path : Path) :
    RoleRegistry × Bool :=
  (roles.filter (fun rp => rp.2 != path), true)

/-! ## Own metadata export (authority.py, _export_own_metadata) -/

/-- SamlAuthority._export_own_metadata: skip the provisional ap role,
append one role descriptor per remaining role (built by the external
pyxb machinery, abstracted as gen) while counting them, and raise
ValueError when the count stays zero. -/
def _export_own_metadata (gen : String → Path → String)
    (roles : RoleRegistry) : Except String (List String) :=
  let res := roles.foldl
    (fun (acc : Nat × List String) rp =>
      if rp.1 = "ap" then acc else (acc.1 + 1, acc.2 ++ [gen rp.1 rp.2]))
    (0, [])
  if res.1 = 0 then
    Except.error "The authority does not have associated roles"
  else Except.ok res.2

/-! ## Deletion guard for role implementors -/

/-- Modelled from the spec: the delete guard of role implementors
(section 4.5, ``delete_guard(path)``) belongs to the Role base class of
role.py, which is imported by attribute.py (``from .role import Role``)
but is not among the available source files; only the role registry it
guards is. Following the spec words, deletion of the underlying
implementor must be refused while any role still maps to it. -/
def delete_guard (roles : RoleRegistry) (path : Path) : Except String Unit :=
  if roles.any (fun rp => rp.2 == path) then
    Except.error "ProtectedDeletionError"
  else Except.ok ()

/-! ## Entity id quoting (entity.py) -/

/-- The bytes that urllib quote with ``safe=""`` passes through
unescaped: ascii letters, digits and ``_.-~``. -/
def alwaysSafe (b : Nat) : Bool :=
  decide ((65 ≤ b ∧ b ≤ 90) ∨ (97 ≤ b ∧ b ≤ 122) ∨ (48 ≤ b ∧ b ≤ 57) ∨
    b = 95 ∨ b = 46 ∨ b = 45 ∨ b = 126)

/-- Upper case hex digit of a nibble, as urllib quote produces it. -/
def hexDigitUpper (n : Nat) : Nat := if n < 10 then 48 + n else 55 + n

/-- urllib ``quote(s, "")`` on the utf8 bytes of the id: every unsafe
byte becomes a percent escape. -/
def pctQuote : Bytes → Bytes
  | [] => []
  | b :: l =>
    (if alwaysSafe b then [b]
     else [37, hexDigitUpper (b / 16), hexDigitUpper (b % 16)]) ++ pctQuote l

/-- Value of a hex digit byte, both cases, as urllib unquote accepts. -/
def hexVal? (c : Nat) : Option Nat :=
  if 48 ≤ c ∧ c ≤ 57 then some (c - 48)
  else if 65 ≤ c ∧ c ≤ 70 then some (c - 55)
  else if 97 ≤ c ∧ c ≤ 102 then some (c - 87)
  else none

/-- urllib ``unquote`` (percent decoding): a percent byte followed by two
hex digits decodes, otherwise the percent byte stays literal. -/
def pctUnquote : Bytes → Bytes
  | [] => []
  | 37 :: h :: lo :: rest2 =>
    match hexVal? h, hexVal? lo with
    | some a, some c => (16 * a + c) :: pctUnquote rest2
    | _, _ => 37 :: pctUnquote (h :: lo :: rest2)
  | b :: rest => b :: pctUnquote rest

/-- entity.py _quote: ``quote(id, "").replace("%", "$")``. -/
def _quote (s : Bytes) : Bytes :=
  (pctQuote s).map (fun b => if b = 37 then 36 else b)

/-- entity.py _unquote: ``unquote(id.replace("$", "%"))``. -/
def _unquote (qid : Bytes) : Bytes :=
  pctUnquote (qid.map (fun b => if b = 36 then 37 else b))

/-- EntityManagerMixin._getOb: the stored entity is found under the
unquoted id (the entity store is the external MetadataRepository). -/
def _getOb (getEntity : Bytes → Option String) (id : Bytes) : Option String :=
  getEntity (_unquote id)

/-! ## Theorems -/

/-- The outer loop degenerates on a single SP descriptor. -/
lemma acs_single_sp (sp : SPSSODescriptor) (idx : Option Int) :
    _attribute_consuming_service ⟨[sp]⟩ idx = selectInSp idx sp := by
  unfold _attribute_consuming_service
  cases h : selectInSp idx sp <;>
    simp [List.findSome?_cons, List.findSome?_nil, h]

/-- The in-descriptor selection with no requested index is exactly the
tie-break chain explicit default, then unset default, then first. -/
lemma selectInSp_none_eq (sp : SPSSODescriptor) :
    selectInSp none sp =
      Option.orElse
        (sp.AttributeConsumingService.find? (fun a => a.isDefault == some true))
        (fun _ => Option.orElse
          (sp.AttributeConsumingService.find? (fun a => a.isDefault.isNone))
          (fun _ => sp.AttributeConsumingService.head?)) := by
  unfold selectInSp
  have hc : acsBreakCond none = fun a : ACS => a.isDefault == some true := rfl
  rw [hc]
  cases h1 : sp.AttributeConsumingService.find? (fun a => a.isDefault == some true) with
  | some a => simp
  | none =>
    cases hE : sp.AttributeConsumingService with
    | nil => simp [hE]
    | cons a l =>
      simp only [hE, Option.isNone_none, List.isEmpty_cons, Bool.not_false,
        Bool.and_self, if_true, Option.none_orElse]
      cases h2 : (a :: l).find? (fun x : ACS => x.isDefault.isNone) <;> simp

/-- C1: for every SP metadata document (one SP descriptor) and no
requested index, the selector returns the first service with isDefault
explicitly true; if none, the first service whose isDefault attribute is
not set at all (explicit false counts as set); if none, the first
service in declaration order; and none when no services are declared. -/
theorem C1_selector_none_tiebreak (sp : SPSSODescriptor) :
    _attribute_consuming_service ⟨[sp]⟩ none =
      Option.orElse
        (sp.AttributeConsumingService.find? (fun a => a.isDefault == some true))
        (fun _ => Option.orElse
          (sp.AttributeConsumingService.find? (fun a => a.isDefault.isNone))
          (fun _ => sp.AttributeConsumingService.head?))
    ∧ (_attribute_consuming_service ⟨[sp]⟩ none = none ↔
        sp.AttributeConsumingService = []) := by
  have hmain := (acs_single_sp sp none).trans (selectInSp_none_eq sp)
  refine ⟨hmain, hmain ▸ ?_⟩
  cases hE : sp.AttributeConsumingService with
  | nil => simp
  | cons a l =>
    simp only [List.head?_cons]
    constructor
    · intro h
      cases h1 : (a :: l).find? (fun x : ACS => x.isDefault == some true) <;>
        cases h2 : (a :: l).find? (fun x : ACS => x.isDefault.isNone) <;>
          simp [h1, h2] at h
    · intro h; cases h

/-- Witness for C1 on the three-service example of the spec. -/
theorem C1_selector_none_tiebreak_witness :
    _attribute_consuming_service
        ⟨[⟨[⟨0, none, []⟩, ⟨1, some false, []⟩, ⟨2, some true, []⟩]⟩]⟩ none =
      some ⟨2, some true, []⟩ := by
  rw [(C1_selector_none_tiebreak
    ⟨[⟨0, none, []⟩, ⟨1, some false, []⟩, ⟨2, some true, []⟩]⟩).1]
  decide

/-- C2: a cache entry is valid at time now iff validUntil is none or
now is at most validUntil; a lookup returns the cached keys (and leaves
the state alone) exactly when the entry is valid, otherwise it
recomputes; and after an unconditional invalidation the next lookup
always recomputes, independent of the previous slot. -/
theorem C2_cache_validity_and_invalidate (env : AuthEnv) (now : Time)
    (st : KeysState) (eid : EntityId) :
    (∀ vU, cacheValid vU now = true ↔ (vU = none ∨ ∃ t, vU = some t ∧ now ≤ t))
    ∧ (∀ info, st.cache eid = some info →
        kmGetItem env now st eid =
          if cacheValid info.1 now then (info.2, st)
          else ((computeKeys env eid).2, kmSet st eid (computeKeys env eid)))
    ∧ kmGetItem env now (kmDelItem st eid) eid =
        ((computeKeys env eid).2, kmSet (kmDelItem st eid) eid (computeKeys env eid)) := by
  refine ⟨?_, ?_, ?_⟩
  · intro vU
    cases vU with
    | none => simp [cacheValid]
    | some t => simp [cacheValid]
  · intro info h
    unfold kmGetItem
    rw [h]
  · have h : (kmDelItem st eid).cache eid = none := by simp [kmDelItem]
    unfold kmGetItem
    rw [h]

/-- Witness for C2: after invalidation the lookup recomputes the keys of
a concrete foreign entity even though the old slot held other keys. -/
theorem C2_cache_validity_and_invalidate_witness :
    (kmGetItem
        ⟨"me", "key.pem", none, fun s => s.toList.map Char.toNat, fun s => s,
         ["idp"], fun _ => ⟨some 10, fun _ => [[7]]⟩⟩
        0
        (kmDelItem ⟨fun _ => some (none, [Key.certDer [9]])⟩ "other")
        "other").1 = [Key.certDer [7]] := by
  have h := (C2_cache_validity_and_invalidate
    ⟨"me", "key.pem", none, fun s => s.toList.map Char.toNat, fun s => s,
     ["idp"], fun _ => ⟨some 10, fun _ => [[7]]⟩⟩
    0 ⟨fun _ => some (none, [Key.certDer [9]])⟩ "other").2.2
  rw [congrArg Prod.fst h]
  decide

/-- C3: with an explicitly requested index that no declared service
carries, the selector returns none and the release fails with the
protocol result ResourceNotRecognized; with no requested index and no
service found at all, the release succeeds with nothing. -/
theorem C3_unknown_index (env : ReleaseEnv) (md : SPMetadata) (i : Int) :
    ((∀ sp ∈ md.SPSSODescriptor, ∀ a ∈ sp.AttributeConsumingService,
        a.index ≠ i) →
      _attribute_consuming_service md (some i) = none
      ∧ _make_attribute_statement env md (some i) =
          ReleaseResult.resourceNotRecognized)
    ∧ ((∀ sp ∈ md.SPSSODescriptor, sp.AttributeConsumingService = []) →
      _make_attribute_statement env md none = ReleaseResult.nothing) := by
  constructor
  · intro h
    have hsel : _attribute_consuming_service md (some i) = none := by
      unfold _attribute_consuming_service
      rw [List.findSome?_eq_none_iff]
      intro sp hsp
      unfold selectInSp
      have hfind : sp.AttributeConsumingService.find?
          (acsBreakCond (some i)) = none := by
        rw [List.find?_eq_none]
        intro a ha
        simp only [acsBreakCond, beq_iff_eq]
        exact h sp hsp a ha
      rw [hfind]
      simp
    refine ⟨hsel, ?_⟩
    unfold _make_attribute_statement
    rw [hsel]
    simp
  · intro h
    have hsel : _attribute_consuming_service md none = none := by
      unfold _attribute_consuming_service
      rw [List.findSome?_eq_none_iff]
      intro sp hsp
      unfold selectInSp
      rw [h sp hsp]
      simp
    unfold _make_attribute_statement
    rw [hsel]
    simp

/-- Witness for C3 at a concrete metadata document. -/
theorem C3_unknown_index_witness :
    _attribute_consuming_service ⟨[⟨[]⟩]⟩ (some 5) = none
    ∧ _make_attribute_statement
        ⟨[], fun _ => none, fun _ _ => RawValue.other "", fun _ => "",
         fun _ _ => []⟩ ⟨[⟨[]⟩]⟩ (some 5) =
        ReleaseResult.resourceNotRecognized
    ∧ _make_attribute_statement
        ⟨[], fun _ => none, fun _ _ => RawValue.other "", fun _ => "",
         fun _ _ => []⟩ ⟨[⟨[]⟩]⟩ none = ReleaseResult.nothing := by
  have h := C3_unknown_index
    ⟨[], fun _ => none, fun _ _ => RawValue.other "", fun _ => "",
     fun _ _ => []⟩ ⟨[⟨[]⟩]⟩ 5
  exact ⟨(h.1 (by decide)).1, (h.1 (by decide)).2, h.2 (by decide)⟩

/-- A lookup that hits a valid cache slot returns it and keeps the state. -/
lemma kmGetItem_of_cached (env : AuthEnv) (now : Time) (st : KeysState)
    (eid : EntityId) (info : Option Time × List Key)
    (h : st.cache eid = some info) (hv : cacheValid info.1 now = true) :
    kmGetItem env now st eid = (info.2, st) := by
  unfold kmGetItem
  rw [h]
  simp [hv]

/-- C4: on a cache miss for the own entity id, the manager caches the
single private signing key with validUntil none; such an entry is valid
at every time, so every later lookup returns the same keys and leaves
the state unchanged (the entry changes only via explicit invalidation);
and with no configured password the sentinel bytes are passed to the
key loader. -/
theorem C4_own_key_entry (env : AuthEnv) (now : Time) (st : KeysState)
    (hmiss : st.cache env.entity_id = none) :
    (kmGetItem env now st env.entity_id).1 =
      [Key.pem (env.makeAbsolute env.private_key) (passwordArg env)]
    ∧ (kmGetItem env now st env.entity_id).2.cache env.entity_id =
        some (none, [Key.pem (env.makeAbsolute env.private_key) (passwordArg env)])
    ∧ (∀ t, cacheValid none t = true)
    ∧ (∀ now2, kmGetItem env now2 (kmGetItem env now st env.entity_id).2
          env.entity_id =
        ((kmGetItem env now st env.entity_id).1,
         (kmGetItem env now st env.entity_id).2))
    ∧ ((env.private_key_password = none ∨ env.private_key_password = some "") →
        passwordArg env = failBytes) := by
  have hck : computeKeys env env.entity_id =
      (none, [Key.pem (env.makeAbsolute env.private_key) (passwordArg env)]) := by
    unfold computeKeys
    rw [if_pos rfl]
  have hget : kmGetItem env now st env.entity_id =
      ((computeKeys env env.entity_id).2,
       kmSet st env.entity_id (computeKeys env env.entity_id)) := by
    unfold kmGetItem
    rw [hmiss]
  have hcache : (kmGetItem env now st env.entity_id).2.cache env.entity_id =
      some (none, [Key.pem (env.makeAbsolute env.private_key) (passwordArg env)]) := by
    rw [hget, hck]
    simp [kmSet]
  refine ⟨by rw [hget, hck], hcache, fun t => rfl, ?_, ?_⟩
  · intro now2
    have hcv := kmGetItem_of_cached env now2
      (kmGetItem env now st env.entity_id).2 env.entity_id _ hcache rfl
    rw [hcv, hget, hck]
  · intro hp
    rcases hp with hp | hp <;> simp [passwordArg, hp]

/-- Witness for C4 on a concrete authority environment. -/
theorem C4_own_key_entry_witness :
    (kmGetItem
        ⟨"me", "key.pem", none, fun s => s.toList.map Char.toNat, fun s => s,
         ["idp"], fun _ => ⟨some 7, fun _ => []⟩⟩
        3 ⟨fun _ => none⟩ "me").1 = [Key.pem "key.pem" failBytes] := by
  have h := C4_own_key_entry
    ⟨"me", "key.pem", none, fun s => s.toList.map Char.toNat, fun s => s,
     ["idp"], fun _ => ⟨some 7, fun _ => []⟩⟩
    3 ⟨fun _ => none⟩ rfl
  rw [h.1, h.2.2.2.2 (Or.inl rfl)]

/-- First-seen deduplication, written structurally: keep the head and
deduplicate the tail with all copies of the head removed. -/
def dedupFirst : List Cert → List Cert
  | [] => []
  | c :: l => c :: dedupFirst (l.filter (fun x => x != c))
termination_by l => l.length
decreasing_by
  simp only [List.length_cons]
  exact Nat.lt_succ_of_le (List.length_filter_le _ _)

lemma mem_collectSigningCerts (l : List Cert) :
    ∀ seen x, x ∈ collectSigningCerts seen l ↔ x ∈ l ∧ x ∉ seen := by
  induction l with
  | nil => intro seen x; simp [collectSigningCerts]
  | cons c l ih =>
    intro seen x
    unfold collectSigningCerts
    by_cases hc : c ∈ seen
    · rw [if_pos hc, ih]
      simp only [List.mem_cons]
      constructor
      · rintro ⟨h1, h2⟩; exact ⟨Or.inr h1, h2⟩
      · rintro ⟨h1, h2⟩
        cases h1 with
        | inl h => exact absurd (h ▸ hc) h2
        | inr h => exact ⟨h, h2⟩
    · rw [if_neg hc]
      simp only [List.mem_cons, ih, List.mem_cons]
      constructor
      · rintro (rfl | ⟨h1, h2⟩)
        · exact ⟨Or.inl rfl, hc⟩
        · exact ⟨Or.inr h1, fun hs => h2 (Or.inr hs)⟩
      · rintro ⟨h1, h2⟩
        cases h1 with
        | inl h => exact Or.inl h
        | inr h =>
          by_cases hxc : x = c
          · exact Or.inl hxc
          · refine Or.inr ⟨h, fun hcs => ?_⟩
            cases hcs with
            | inl h3 => exact hxc h3
            | inr h3 => exact h2 h3

lemma nodup_collectSigningCerts (l : List Cert) :
    ∀ seen, (collectSigningCerts seen l).Nodup := by
  induction l with
  | nil => intro seen; simp [collectSigningCerts]
  | cons c l ih =>
    intro seen
    unfold collectSigningCerts
    by_cases hc : c ∈ seen
    · rw [if_pos hc]; exact ih seen
    · rw [if_neg hc]
      refine List.nodup_cons.2 ⟨fun hmem => ?_, ih (c :: seen)⟩
      exact ((mem_collectSigningCerts l (c :: seen) c).1 hmem).2 (List.mem_cons_self _ _)

lemma dedupFirst_cons (c : Cert) (l : List Cert) :
    dedupFirst (c :: l) = c :: dedupFirst (l.filter (fun x => x != c)) := by
  rw [dedupFirst]

lemma collectSigningCerts_eq_dedupFirst (l : List Cert) :
    ∀ seen, collectSigningCerts seen l =
      dedupFirst (l.filter (fun x => decide (x ∉ seen))) := by
  induction l with
  | nil => intro seen; simp [collectSigningCerts, dedupFirst]
  | cons c l ih =>
    intro seen
    unfold collectSigningCerts
    by_cases hc : c ∈ seen
    · rw [if_pos hc, List.filter_cons_of_neg (by simpa using hc), ih]
    · rw [if_neg hc, List.filter_cons_of_pos (by simpa using hc),
        dedupFirst_cons, ih (c :: seen)]
      have hff : List.filter (fun x => x != c)
            (List.filter (fun x => decide (x ∉ seen)) l) =
          List.filter (fun x => decide (x ∉ c :: seen)) l := by
        rw [List.filter_filter]
        apply List.filter_congr
        intro x _
        by_cases h1 : x = c
        · simp [h1]
        · by_cases h2 : x ∈ seen <;> simp [h1, h2]
      rw [hff]

lemma foreignCertList_eq (env : AuthEnv) (eid : EntityId) :
    foreignCertList env eid =
      dedupFirst (env.role2element.flatMap (env.metadata eid).signingCerts) := by
  unfold foreignCertList
  rw [collectSigningCerts_eq_dedupFirst]
  congr 1
  apply List.filter_eq_self.2
  intro x _
  simp

/-- C5: on a cache miss for a foreign entity id, the manager stores the
declared validity of the fetched metadata, and the key list is made of
the signing certificates of all role sections in order, loaded as der
verification keys, each distinct certificate byte string kept exactly
once at its first occurrence. -/
theorem C5_foreign_keys (env : AuthEnv) (now : Time) (st : KeysState)
    (eid : EntityId) (hne : env.entity_id ≠ eid)
    (hmiss : st.cache eid = none) :
    (kmGetItem env now st eid).1 = (foreignCertList env eid).map Key.certDer
    ∧ (kmGetItem env now st eid).2.cache eid =
        some ((env.metadata eid).validUntil,
              (foreignCertList env eid).map Key.certDer)
    ∧ foreignCertList env eid =
        dedupFirst (env.role2element.flatMap (env.metadata eid).signingCerts)
    ∧ (foreignCertList env eid).Nodup
    ∧ (∀ c, c ∈ foreignCertList env eid ↔
        c ∈ env.role2element.flatMap (env.metadata eid).signingCerts) := by
  have hck : computeKeys env eid =
      ((env.metadata eid).validUntil,
       (foreignCertList env eid).map Key.certDer) := by
    unfold computeKeys
    rw [if_neg hne]
  have hget : kmGetItem env now st eid =
      ((computeKeys env eid).2, kmSet st eid (computeKeys env eid)) := by
    unfold kmGetItem
    rw [hmiss]
  refine ⟨by rw [hget, hck], ?_, foreignCertList_eq env eid,
    nodup_collectSigningCerts _ [], ?_⟩
  · rw [hget, hck]
    simp [kmSet]
  · intro c
    unfold foreignCertList
    rw [mem_collectSigningCerts]
    simp

/-- Witness for C5 on a concrete foreign entity with an overlapping
certificate between two role sections. -/
theorem C5_foreign_keys_witness :
    (kmGetItem
        ⟨"me", "key.pem", none, fun s => s.toList.map Char.toNat, fun s => s,
         ["idp", "sp"],
         fun _ => ⟨some 10, fun r => if r = "idp" then [[1], [2]] else [[2], [3]]⟩⟩
        0 ⟨fun _ => none⟩ "other").1 =
      [Key.certDer [1], Key.certDer [2], Key.certDer [3]] := by
  have h := C5_foreign_keys
    ⟨"me", "key.pem", none, fun s => s.toList.map Char.toNat, fun s => s,
     ["idp", "sp"],
     fun _ => ⟨some 10, fun r => if r = "idp" then [[1], [2]] else [[2], [3]]⟩⟩
    0 ⟨fun _ => none⟩ "other" (by decide) rfl
  rw [h.1]
  decide

/-- SP metadata declaring a single default service with the given
requested attributes. -/
def mdOf (reqs : List RequestedAttr) : SPMetadata :=
  ⟨[⟨[⟨0, some true, reqs⟩]⟩]⟩

lemma select_mdOf (reqs : List RequestedAttr) :
    _attribute_consuming_service (mdOf reqs) none =
      some ⟨0, some true, reqs⟩ := rfl

lemma statement_mdOf (env : ReleaseEnv) (reqs : List RequestedAttr) :
    _make_attribute_statement env (mdOf reqs) none =
      (if (reqs.filterMap (emitAttr env)).isEmpty then ReleaseResult.nothing
       else ReleaseResult.statement (reqs.filterMap (emitAttr env))) := by
  unfold _make_attribute_statement
  rw [select_mdOf]

lemma emitAttr_of_miss (env : ReleaseEnv) (ra : RequestedAttr)
    (h : catalogLookup env.providedAttrs (requestedKey ra) = none) :
    emitAttr env ra = none := by
  unfold emitAttr
  rw [h]

/-- C6: a requested attribute whose normalized format and name miss the
local catalog is skipped without affecting the attributes released for
the remaining requests; and when every requested attribute misses the
catalog the release returns nothing instead of an empty statement. -/
theorem C6_catalog_miss (env : ReleaseEnv) (l1 l2 reqs : List RequestedAttr)
    (ra : RequestedAttr)
    (hmiss : catalogLookup env.providedAttrs (requestedKey ra) = none)
    (hall : ∀ r ∈ reqs, catalogLookup env.providedAttrs (requestedKey r) = none) :
    _make_attribute_statement env (mdOf (l1 ++ ra :: l2)) none =
      _make_attribute_statement env (mdOf (l1 ++ l2)) none
    ∧ _make_attribute_statement env (mdOf reqs) none = ReleaseResult.nothing := by
  constructor
  · rw [statement_mdOf, statement_mdOf]
    have hfm : (l1 ++ ra :: l2).filterMap (emitAttr env) =
        (l1 ++ l2).filterMap (emitAttr env) := by
      rw [List.filterMap_append, List.filterMap_append,
        List.filterMap_cons_none (emitAttr_of_miss env ra hmiss)]
    rw [hfm]
  · rw [statement_mdOf]
    have hnil : reqs.filterMap (emitAttr env) = [] :=
      List.filterMap_eq_nil_iff.2
        (fun r hr => emitAttr_of_miss env r (hall r hr))
    rw [hnil]
    rfl

/-- Witness for C6: the known attribute mail stays released while the
unknown request is skipped; a fully unknown request list yields nothing. -/
theorem C6_catalog_miss_witness :
    _make_attribute_statement
        ⟨[⟨"f", "mail", "mail", "string", none⟩],
         fun _ => some (RawValue.str "a@example.org"), fun _ _ => RawValue.other "",
         fun _ => "",
         fun _ v => match v with | some (RawValue.str s) => [s] | _ => []⟩
        (mdOf [⟨some "f", "mail", none⟩, ⟨some "f", "nope", none⟩]) none =
      _make_attribute_statement
        ⟨[⟨"f", "mail", "mail", "string", none⟩],
         fun _ => some (RawValue.str "a@example.org"), fun _ _ => RawValue.other "",
         fun _ => "",
         fun _ v => match v with | some (RawValue.str s) => [s] | _ => []⟩
        (mdOf [⟨some "f", "mail", none⟩]) none
    ∧ _make_attribute_statement
        ⟨[⟨"f", "mail", "mail", "string", none⟩],
         fun _ => some (RawValue.str "a@example.org"), fun _ _ => RawValue.other "",
         fun _ => "",
         fun _ v => match v with | some (RawValue.str s) => [s] | _ => []⟩
        (mdOf [⟨some "f", "nope", none⟩]) none = ReleaseResult.nothing := by
  exact C6_catalog_miss
    ⟨[⟨"f", "mail", "mail", "string", none⟩],
     fun _ => some (RawValue.str "a@example.org"), fun _ _ => RawValue.other "",
     fun _ => "",
     fun _ v => match v with | some (RawValue.str s) => [s] | _ => []⟩
    [⟨some "f", "mail", none⟩] [] [⟨some "f", "nope", none⟩]
    ⟨some "f", "nope", none⟩ (by decide)
    (by intro r hr; simp at hr; rw [hr]; decide)

/-- C7 counterexample: the role sp is registered a second time, by an
implementor that also provides the still fresh role idp; the call fails
with the duplicate-role error, yet the registry is not left unchanged:
the idp mapping had already been inserted when the error was raised. -/
theorem C7_register_counterexample :
    (register_role_implementor ["idp", "sp"] (fun r => r == "idp" || r == "sp")
        [("sp", ["a"])] ["b"]).1 = some "sp"
    ∧ (register_role_implementor ["idp", "sp"] (fun r => r == "idp" || r == "sp")
        [("sp", ["a"])] ["b"]).2.1 ≠ [("sp", ["a"])] := by
  refine ⟨rfl, ?_⟩
  decide

lemma registerGo_ok (provides : String → Bool) (path : Path) :
    ∀ (rs : List String) (roles : RoleRegistry), rs.Nodup →
      (∀ x ∈ rs, provides x = true → roles.lookup x = none) →
      registerGo provides path rs roles =
        (none, roles ++ (rs.filter provides).map (fun x => (x, path))) := by
  intro rs
  induction rs with
  | nil => intro roles _ _; simp [registerGo]
  | cons x rest ih =>
    intro roles hnd h
    unfold registerGo
    by_cases hp : provides x
    · rw [if_pos hp]
      have hlx : roles.lookup x = none := h x (List.mem_cons_self x rest) hp
      rw [hlx]
      simp only [Option.isSome_none, Bool.false_eq_true, if_false]
      rw [ih (roles ++ [(x, path)]) (List.Nodup.of_cons hnd) ?_]
      · rw [List.filter_cons_of_pos hp]
        simp [List.append_assoc]
      · intro y hy hpy
        rw [List.lookup_append, h y (List.mem_cons_of_mem x hy) hpy]
        have hyx : y ≠ x := by
          intro he
          exact (List.nodup_cons.1 hnd).1 (he ▸ hy)
        have hbe : (y == x) = false := beq_eq_false_iff_ne.2 hyx
        simp [List.lookup, hbe]
    · rw [if_neg hp,
        ih roles (List.Nodup.of_cons hnd)
          (fun y hy hpy => h y (List.mem_cons_of_mem x hy) hpy),
        List.filter_cons_of_neg hp]

lemma registerGo_fail (provides : String → Bool) (path : Path) :
    ∀ (l1 : List String) (roles : RoleRegistry) (r : String) (l2 : List String),
      (l1 ++ r :: l2).Nodup → provides r = true →
      (roles.lookup r).isSome = true →
      (∀ x ∈ l1, provides x = true → roles.lookup x = none) →
      registerGo provides path (l1 ++ r :: l2) roles =
        (some r, roles ++ (l1.filter provides).map (fun x => (x, path))) := by
  intro l1
  induction l1 with
  | nil =>
    intro roles r l2 _ hp hl _
    simp only [List.nil_append]
    unfold registerGo
    rw [if_pos hp, if_pos hl]
    simp
  | cons x l1 ih =>
    intro roles r l2 hnd hp hl h
    simp only [List.cons_append]
    unfold registerGo
    by_cases hpx : provides x
    · rw [if_pos hpx]
      have hlx : roles.lookup x = none := h x (List.mem_cons_self x l1) hpx
      rw [hlx]
      simp only [Option.isSome_none, Bool.false_eq_true, if_false]
      rw [ih (roles ++ [(x, path)]) r l2 (by simpa using List.Nodup.of_cons hnd)
        hp ?_ ?_]
      · rw [List.filter_cons_of_pos hpx]
        simp [List.append_assoc]
      · rw [List.lookup_append]
        cases hrx : roles.lookup r with
        | some v => rfl
        | none => rw [hrx] at hl; cases hl
      · intro y hy hpy
        rw [List.lookup_append, h y (List.mem_cons_of_mem x hy) hpy]
        have hyx : y ≠ x := by
          intro he
          refine (List.nodup_cons.1 hnd).1 ?_
          rw [← he]
          exact List.mem_append_left _ hy
        have hbe : (y == x) = false := beq_eq_false_iff_ne.2 hyx
        simp [List.lookup, hbe]
    · rw [if_neg hpx, List.filter_cons_of_neg hpx]
      refine ih roles r l2 (by simpa using List.Nodup.of_cons hnd) hp hl
        (fun y hy hpy => h y (List.mem_cons_of_mem x hy) hpy)

/-- C7 (amended): with pairwise distinct roles in role2element,
registration of an implementor whose provided roles are all fresh
inserts one mapping per provided role and runs the invalidation; if some
provided role is already registered the call fails with that role and
the invalidation does not run, and the mappings inserted for provided
roles processed before the conflicting one remain (in particular the
registry is unchanged exactly when the conflicting role is the first
provided one, as when the same single role is registered twice). -/
theorem C7_register_behavior (r2e : List String) (provides : String → Bool)
    (roles : RoleRegistry) (path : Path) (l1 l2 : List String) (r : String)
    (hnd : r2e.Nodup) :
    ((∀ x ∈ r2e, provides x = true → roles.lookup x = none) →
      register_role_implementor r2e provides roles path =
        (none, roles ++ (r2e.filter provides).map (fun x => (x, path)), true))
    ∧ (r2e = l1 ++ r :: l2 → provides r = true →
        (roles.lookup r).isSome = true →
        (∀ x ∈ l1, provides x = true → roles.lookup x = none) →
        register_role_implementor r2e provides roles path =
          (some r, roles ++ (l1.filter provides).map (fun x => (x, path)), false)) := by
  constructor
  · intro h
    unfold register_role_implementor
    rw [registerGo_ok provides path r2e roles hnd h]
    rfl
  · intro he hp hl h
    subst he
    unfold register_role_implementor
    rw [registerGo_fail provides path l1 roles r l2 hnd hp hl h]
    rfl

/-- Witness for C7: a fresh single-role registration succeeds and
inserts; repeating it fails with the duplicate role and leaves the
registry unchanged. -/
theorem C7_register_behavior_witness :
    register_role_implementor ["idp", "sp"] (fun r => r == "idp") [] ["a"] =
      (none, [("idp", ["a"])], true)
    ∧ register_role_implementor ["idp", "sp"] (fun r => r == "idp")
        [("idp", ["a"])] ["a"] =
      (some "idp", [("idp", ["a"])], false) := by
  constructor
  · exact (C7_register_behavior ["idp", "sp"] (fun r => r == "idp") [] ["a"]
      [] [] "idp" (by decide)).1 (by decide)
  · exact (C7_register_behavior ["idp", "sp"] (fun r => r == "idp")
      [("idp", ["a"])] ["a"] [] ["sp"] "idp" (by decide)).2 rfl rfl rfl
      (by intro x hx; cases hx)

lemma export_foldl (gen : String → Path → String) :
    ∀ (roles : RoleRegistry) (n : Nat) (acc : List String),
      roles.foldl
        (fun (a : Nat × List String) rp =>
          if rp.1 = "ap" then a else (a.1 + 1, a.2 ++ [gen rp.1 rp.2]))
        (n, acc) =
      (n + (roles.filter (fun rp => rp.1 != "ap")).length,
       acc ++ (roles.filter (fun rp => rp.1 != "ap")).map
         (fun rp => gen rp.1 rp.2)) := by
  intro roles
  induction roles with
  | nil => intro n acc; simp
  | cons rp rest ih =>
    intro n acc
    rw [List.foldl_cons]
    by_cases h : rp.1 = "ap"
    · rw [if_pos h, ih, List.filter_cons_of_neg (by simp [h])]
    · rw [if_neg h, ih, List.filter_cons_of_pos (by simp [h])]
      simp only [List.length_cons, List.map_cons, Prod.mk.injEq]
      refine ⟨by omega, by simp⟩

/-- C8: exporting the own metadata fails with the configuration error on
an empty role registry, and exactly when no role descriptor remains
after skipping the provisional ap role; otherwise it produces one role
descriptor per registered non-ap role, in registry order. -/
theorem C8_export_own_metadata (gen : String → Path → String)
    (roles : RoleRegistry) :
    _export_own_metadata gen [] =
      Except.error "The authority does not have associated roles"
    ∧ (roles.filter (fun rp => rp.1 != "ap") = [] →
        _export_own_metadata gen roles =
          Except.error "The authority does not have associated roles")
    ∧ (roles.filter (fun rp => rp.1 != "ap") ≠ [] →
        _export_own_metadata gen roles =
          Except.ok ((roles.filter (fun rp => rp.1 != "ap")).map
            (fun rp => gen rp.1 rp.2))) := by
  refine ⟨rfl, ?_, ?_⟩
  · intro h
    unfold _export_own_metadata
    rw [export_foldl, h]
    rfl
  · intro h
    unfold _export_own_metadata
    rw [export_foldl]
    have hlen : (roles.filter (fun rp => rp.1 != "ap")).length ≠ 0 := by
      intro h0
      exact h (List.length_eq_zero.1 h0)
    simp only [Nat.zero_add, List.nil_append]
    rw [if_neg hlen]

/-- Witness for C8: empty registry fails, an ap-only registry fails, a
registry with an idp role yields exactly that descriptor. -/
theorem C8_export_own_metadata_witness :
    _export_own_metadata (fun r _ => r) [("ap", ["a"])] =
      Except.error "The authority does not have associated roles"
    ∧ _export_own_metadata (fun r _ => r) [("ap", ["a"]), ("idp", ["b"])] =
      Except.ok ["idp"] := by
  constructor
  · exact (C8_export_own_metadata (fun r _ => r) [("ap", ["a"])]).2.1 (by decide)
  · exact (C8_export_own_metadata (fun r _ => r)
      [("ap", ["a"]), ("idp", ["b"])]).2.2 (by decide)

/-- C9: deletion of a role implementor is refused with the typed error
while any role mapping still points at its path, allowed once no mapping
does, and in particular allowed right after unregistration removed every
mapping with that path. -/
theorem C9_delete_guard (roles : RoleRegistry) (path : Path) :
    ((∃ rp ∈ roles, rp.2 = path) →
      delete_guard roles path = Except.error "ProtectedDeletionError")
    ∧ ((∀ rp ∈ roles, rp.2 ≠ path) → delete_guard roles path = Except.ok ())
    ∧ delete_guard (unregister_role_implementor roles path).1 path =
        Except.ok () := by
  refine ⟨?_, ?_, ?_⟩
  · rintro ⟨rp, hmem, hpath⟩
    unfold delete_guard
    rw [if_pos ?_]
    rw [List.any_eq_true]
    exact ⟨rp, hmem, by simp [hpath]⟩
  · intro h
    unfold delete_guard
    rw [if_neg ?_]
    simp only [List.any_eq_true, not_exists]
    rintro rp ⟨hmem, hbe⟩
    exact h rp hmem (by simpa using hbe)
  · unfold delete_guard unregister_role_implementor
    rw [if_neg ?_]
    simp only [List.any_eq_true, not_exists]
    rintro rp ⟨hmem, hbe⟩
    have hne := (List.mem_filter.1 hmem).2
    simp only [bne_iff_ne, ne_eq] at hne
    exact hne (by simpa using hbe)

/-- Witness for C9 on a concrete registry. -/
theorem C9_delete_guard_witness :
    delete_guard [("idp", ["a"])] ["a"] = Except.error "ProtectedDeletionError"
    ∧ delete_guard (unregister_role_implementor [("idp", ["a"])] ["a"]).1 ["a"] =
        Except.ok () := by
  constructor
  · exact (C9_delete_guard [("idp", ["a"])] ["a"]).1 ⟨("idp", ["a"]), by decide⟩
  · exact (C9_delete_guard [("idp", ["a"])] ["a"]).2.2

lemma hexVal_hexDigitUpper (n : Nat) (h : n < 16) :
    hexVal? (hexDigitUpper n) = some n := by
  unfold hexVal? hexDigitUpper
  by_cases h10 : n < 10
  · rw [if_pos h10, if_pos (by omega)]
    congr 1
    omega
  · rw [if_neg h10, if_neg (by omega), if_pos (by omega)]
    congr 1
    omega

lemma safe_ne37 (b : Nat) (h : alwaysSafe b = true) : b ≠ 37 := by
  intro he
  rw [he] at h
  exact absurd h (by decide)

lemma hexDigitUpper_ne36 (n : Nat) : hexDigitUpper n ≠ 36 := by
  unfold hexDigitUpper
  split <;> omega

lemma no36_pctQuote (s : Bytes) : 36 ∉ pctQuote s := by
  induction s with
  | nil => simp [pctQuote]
  | cons b l ih =>
    unfold pctQuote
    by_cases hs : alwaysSafe b
    · rw [if_pos hs, List.singleton_append]
      have hb : b ≠ 36 := by
        intro he
        rw [he] at hs
        exact absurd hs (by decide)
      simp only [List.mem_cons, not_or]
      exact ⟨fun he => hb he.symm, ih⟩
    · rw [if_neg hs]
      simp only [List.cons_append, List.nil_append, List.mem_cons, not_or]
      exact ⟨by decide, fun he => hexDigitUpper_ne36 _ he.symm,
        fun he => hexDigitUpper_ne36 _ he.symm, ih⟩

lemma pctUnquote_cons_ne (b : Nat) (rest : Bytes) (hb : b ≠ 37) :
    pctUnquote (b :: rest) = b :: pctUnquote rest := by
  rcases rest with _ | ⟨h, rest⟩
  · simp [pctUnquote]
  rcases rest with _ | ⟨lo, rest2⟩
  · simp [pctUnquote]
  · simp [pctUnquote, hb]

lemma pctUnquote_escape (h lo : Nat) (rest2 : Bytes) (a c : Nat)
    (hh : hexVal? h = some a) (hl : hexVal? lo = some c) :
    pctUnquote (37 :: h :: lo :: rest2) = (16 * a + c) :: pctUnquote rest2 := by
  simp [pctUnquote, hh, hl]

lemma pctUnquote_pctQuote (s : Bytes) (h : ∀ b ∈ s, b < 256) :
    pctUnquote (pctQuote s) = s := by
  induction s with
  | nil => rfl
  | cons b l ih =>
    have hb : b < 256 := h b (List.mem_cons_self b l)
    have hl : ∀ x ∈ l, x < 256 := fun x hx => h x (List.mem_cons_of_mem b hx)
    unfold pctQuote
    by_cases hs : alwaysSafe b
    · rw [if_pos hs, List.singleton_append,
        pctUnquote_cons_ne b _ (safe_ne37 b hs), ih hl]
    · rw [if_neg hs]
      simp only [List.cons_append, List.nil_append]
      rw [pctUnquote_escape _ _ _ (b / 16) (b % 16)
        (hexVal_hexDigitUpper _ (by omega)) (hexVal_hexDigitUpper _ (by omega)),
        ih hl]
      congr 1
      omega

lemma swap_roundtrip (l : Bytes) (h : 36 ∉ l) :
    (l.map (fun b => if b = 37 then 36 else b)).map
      (fun b => if b = 36 then 37 else b) = l := by
  rw [List.map_map]
  have hid : ∀ x ∈ l,
      ((fun b => if b = 36 then 37 else b) ∘
       (fun b => if b = 37 then 36 else b)) x = id x := by
    intro x hx
    by_cases h37 : x = 37
    · simp [h37]
    · have h36 : x ≠ 36 := fun he => h (he ▸ hx)
      simp [h37, h36]
  rw [List.map_congr_left hid, List.map_id]

/-- C10: the id quoting of the entity manager round-trips exactly on
every byte string (percent-quote then replace percent by dollar, back by
the reverse), so a lookup by quoted id always reaches the entity stored
under the original id. -/
theorem C10_quote_roundtrip (s : Bytes) (h : ∀ b ∈ s, b < 256) :
    _unquote (_quote s) = s
    ∧ (∀ store : Bytes → Option String, _getOb store (_quote s) = store s) := by
  have hrt : _unquote (_quote s) = s := by
    unfold _quote _unquote
    rw [swap_roundtrip _ (no36_pctQuote s), pctUnquote_pctQuote s h]
  refine ⟨hrt, fun store => ?_⟩
  unfold _getOb
  rw [hrt]

/-- Witness for C10 on an id containing a dollar, a percent, a slash and
a non-ascii byte. -/
theorem C10_quote_roundtrip_witness :
    _unquote (_quote [97, 36, 37, 47, 255]) = [97, 36, 37, 47, 255] :=
  (C10_quote_roundtrip [97, 36, 37, 47, 255] (by decide)).1

end Saml2
